import Mathlib

/-!
# Verification of the poke-code filter/pagination core

Shallow embedding of the filter engine, lookup caches and pagination
controller of the repository (module `src/modules/core.js`, together with
the helpers it relies on).  Pure functions of the JavaScript source become
Lean functions; the module-level mutable state (`filteredData`,
`currentBatchIndex`, the three category maps) becomes explicit state
passing; rejected promises become `Except Unit`; the remote API becomes a
deterministic fetcher function `String → Option (List String)` (`none`
models a rejected fetch).
-/

/-- An entity of the catalog, as produced by `transformPokemonData` in
`src/utils/helper.js`: `{ id, name, image, url }`. -/
structure Pokemon where
  id : Nat
  name : String
  image : String
  url : String
deriving DecidableEq

/-- The `data` field of a lookup-cache entry.  In the source it is either a
JavaScript `Array` of entity names (`arr`) or a `Promise` (`prom`) chained
with `.then`/`.catch`: `prom (some l)` is a promise of a successful fetch
that will resolve to `l` and whose then-handler (which writes the array
back into the entry) has not yet run; `prom none` is the promise left in
the entry after a rejected fetch, which the catch-handler resolves to the
empty list. -/
inductive CacheData where
  | arr (l : List String)
  | prom (r : Option (List String))
deriving DecidableEq

/-- A lookup-cache entry `{ url, data }` as built by
`transformStructuredData` in `src/utils/helper.js`. -/
structure CacheEntry where
  url : String
  data : CacheData
deriving DecidableEq

/-- A category lookup table (`typeMap`, `colorMap`, `genderMap`): a
JavaScript `Map` from category value to entry, modelled as an association
list in insertion order. -/
abbrev CacheMap := List (String × CacheEntry)

/-- `Map.prototype.get`: first entry with the given key, if any. -/
def mapGet : CacheMap → String → Option CacheEntry
  | [], _ => none
  | (k', v) :: rest, k => if k' == k then some v else mapGet rest k

/-- `Map.prototype.set`: replace the value at an existing key (keeping its
position), or append a fresh binding. -/
def mapSet : CacheMap → String → CacheEntry → CacheMap
  | [], k, v => [(k, v)]
  | (k', v') :: rest, k, v =>
      if k' == k then (k', v) :: rest else (k', v') :: mapSet rest k v

/-- `transformStructuredData` (src/utils/helper.js): build a lookup table
from `(name, url)` pairs, every entry starting with `data: []`. -/
def transformStructuredData (wholeData : List (String × String)) : CacheMap :=
  wholeData.map (fun p => (p.1, { url := p.2, data := CacheData.arr [] }))

/-- The deterministic model of `apiService.fetchSpecific…Pokemons`: for a
source url, either the fetched member list or `none` for a rejected
fetch.  One fetcher per category, mirroring the three api-service calls. -/
structure Fetchers where
  ftype : String → Option (List String)
  fcolor : String → Option (List String)
  fgender : String → Option (List String)

/-- The three module-level lookup tables of `src/modules/core.js`. -/
structure Caches where
  typeMap : CacheMap
  colorMap : CacheMap
  genderMap : CacheMap
deriving DecidableEq

/-- The filter selection read by `filterData`: the raw search-box text and
the values gathered by `getSelectedFilters` (src/modules/filters.js). -/
structure Selection where
  query : String
  types : List String
  colors : List String
  gender : String

/-- JavaScript `String.prototype.includes`: substring containment. -/
def strIncludes (s q : String) : Bool :=
  decide (q.data <:+: s.data)

/-- JavaScript `String.prototype.toLowerCase` over the ASCII alphabet the
catalog uses, modelled character-wise. -/
def jsToLower (s : String) : String :=
  String.mk (s.data.map Char.toLower)

/-- JavaScript `String.prototype.trim`: strip leading and trailing
whitespace. -/
def jsTrim (s : String) : String :=
  String.mk (((s.data.dropWhile Char.isWhitespace).reverse.dropWhile
    Char.isWhitespace).reverse)

/-- The text-match predicate of `filterData` (core.js line 107):
`query === '' || pokemon.name.toLowerCase().includes(query) ||
pokemon.id.toString().includes(query)`, where `query` is the trimmed,
lower-cased search text. -/
def matchesQuery (query : String) (p : Pokemon) : Bool :=
  query == "" || strIncludes (jsToLower p.name) query || strIncludes (Nat.repr p.id) query

/-- One cache consultation inside `checkMatchType` (core.js lines
190-206), collapsed over the await: if `data` is an empty array the fetch
is issued and, by the time the await returns, has settled (then-handler
stores the array on success, catch resolves `[]` on failure, the entry
keeping the rejected promise); otherwise the stored array or the pending
promise's value is observed.  Returns the updated entry, the member list
observed by `await typeElm.data`, and the number of fetches issued. -/
def resolveEntry (f : String → Option (List String)) (e : CacheEntry) :
    CacheEntry × List String × Nat :=
  match e.data with
  | .arr l =>
      if l.isEmpty then
        match f e.url with
        | some r => ({ url := e.url, data := .arr r }, r, 1)
        | none => ({ url := e.url, data := .prom none }, [], 1)
      else (e, l, 0)
  | .prom (some l) => ({ url := e.url, data := .arr l }, l, 0)
  | .prom none => (e, [], 0)

/-- The `for await (const v of vals)` loop shared by `checkMatchType` and
`checkMatchColor` (core.js lines 189-212): look each selected value up in
the table (`undefined` dereference throws, modelled as `.error ()`),
resolve its member list, and return `true` at the first list containing
the entity's name, `false` after the loop.  Threads the table and counts
fetches. -/
def checkMatchLoop (f : String → Option (List String)) (name : String) :
    List String → CacheMap → (Except Unit Bool) × CacheMap × Nat
  | [], m => (.ok false, m, 0)
  | v :: vs, m =>
      match mapGet m v with
      | none => (.error (), m, 0)
      | some e =>
          let r := resolveEntry f e
          let m' := mapSet m v r.1
          if r.2.1.contains name then (.ok true, m', r.2.2)
          else
            let rest := checkMatchLoop f name vs m'
            (rest.1, rest.2.1, r.2.2 + rest.2.2)

/-- `checkMatchType` (core.js lines 186-213): `true` for an empty
selection, otherwise the OR-loop over the selected type values. -/
def checkMatchType (f : String → Option (List String)) (name : String)
    (types : List String) (m : CacheMap) : (Except Unit Bool) × CacheMap × Nat :=
  if types.isEmpty then (.ok true, m, 0) else checkMatchLoop f name types m

/-- `checkMatchColor` (core.js lines 222-249): identical to
`checkMatchType`, over the color table. -/
def checkMatchColor (f : String → Option (List String)) (name : String)
    (colors : List String) (m : CacheMap) : (Except Unit Bool) × CacheMap × Nat :=
  if colors.isEmpty then (.ok true, m, 0) else checkMatchLoop f name colors m

/-- `checkMatchGender` (core.js lines 258-283): `true` for `'all'`,
otherwise a single lookup of the selected gender value; a value missing
from the table makes `genderElm.data` throw (`.error ()`). -/
def checkMatchGender (f : String → Option (List String)) (name : String)
    (gender : String) (m : CacheMap) : (Except Unit Bool) × CacheMap × Nat :=
  if gender == "all" then (.ok true, m, 0)
  else
    match mapGet m gender with
    | none => (.error (), m, 0)
    | some e =>
        let r := resolveEntry f e
        (.ok (r.2.1.contains name), mapSet m gender r.1, r.2.2)

/-- The per-entity async closure of `filterData` (core.js lines 105-116):
evaluate the text predicate and the three category predicates
(`Promise.all` of the three checks, each reading its own table), and
produce `some pokemon` exactly when all four hold; a rejection of any
check rejects the whole evaluation. -/
def evalPokemon (f : Fetchers) (query : String) (types colors : List String)
    (gender : String) (p : Pokemon) (c : Caches) :
    (Except Unit (Option Pokemon)) × Caches × Nat :=
  let t := checkMatchType f.ftype p.name types c.typeMap
  let co := checkMatchColor f.fcolor p.name colors c.colorMap
  let g := checkMatchGender f.fgender p.name gender c.genderMap
  let c' : Caches := { typeMap := t.2.1, colorMap := co.2.1, genderMap := g.2.1 }
  let n := t.2.2 + co.2.2 + g.2.2
  let res : Except Unit (Option Pokemon) :=
    match t.1, co.1, g.1 with
    | .ok mt, .ok mc, .ok mg =>
        .ok (if matchesQuery query p && mt && mc && mg then some p else none)
    | _, _, _ => .error ()
  (res, c', n)

/-- `pokemonData.map(async pokemon => …)`: evaluate every catalog entity,
threading the lookup tables, collecting the per-entity outcomes and the
total number of fetches issued. -/
def evalAll (f : Fetchers) (query : String) (types colors : List String)
    (gender : String) :
    List Pokemon → Caches → List (Except Unit (Option Pokemon)) × Caches × Nat
  | [], c => ([], c, 0)
  | p :: ps, c =>
      let r := evalPokemon f query types colors gender p c
      let rest := evalAll f query types colors gender ps r.2.1
      (r.1 :: rest.1, rest.2.1, r.2.2 + rest.2.2)

/-- `Promise.all`: the list of settled values, or a rejection if any
evaluation rejected. -/
def promiseAll : List (Except Unit (Option Pokemon)) → Except Unit (List (Option Pokemon))
  | [] => .ok []
  | .error e :: _ => .error e
  | .ok v :: rest => (promiseAll rest).map (fun l => v :: l)

/-- One filter pass over the catalog (core.js lines 105-120): evaluate all
entities, await them with `Promise.all`, and on success keep the non-null
results in order.  Returns the pass outcome, the lookup tables after the
pass, and the number of category fetches issued. -/
def runFilterPass (f : Fetchers) (catalog : List Pokemon) (sel : Selection)
    (c : Caches) : (Except Unit (List Pokemon)) × Caches × Nat :=
  let query := jsToLower (jsTrim sel.query)
  let r := evalAll f query sel.types sel.colors sel.gender catalog c
  let outcome : Except Unit (List Pokemon) :=
    match promiseAll r.1 with
    | .ok results => .ok (results.filterMap id)
    | .error e => .error e
  (outcome, r.2.1, r.2.2)

/-- `batchSize` (core.js line 29). -/
def batchSize : Nat := 20

/-- The module-level mutable state of core.js that the claims are about:
`filteredData`, `currentBatchIndex` and the three lookup tables. -/
structure AppState where
  filteredData : List Pokemon
  currentBatchIndex : Nat
  caches : Caches
deriving DecidableEq

/-- `loadNextBatch` (core.js lines 160-177): when the index has reached
the end it renders nothing and hides the button (empty batch, no more
data) without touching the index; otherwise it slices
`[currentBatchIndex, currentBatchIndex + batchSize)`, advances the index
by `batchSize` unconditionally, and reports whether more data remains.
Returns `((batch, hasMoreData), new state)`. -/
def loadNextBatch (st : AppState) : (List Pokemon × Bool) × AppState :=
  if st.filteredData.length ≤ st.currentBatchIndex then
    (([], false), st)
  else
    let batch := (st.filteredData.drop st.currentBatchIndex).take batchSize
    let idx := st.currentBatchIndex + batchSize
    ((batch, decide (idx < st.filteredData.length)),
      { st with currentBatchIndex := idx })

/-- `filterData` (core.js lines 96-139): run the filter pass; on success
publish the new Filtered Result wholesale, reset the cursor and render the
first batch when there are results; on rejection fall into the catch
branch, leaving `filteredData` and `currentBatchIndex` untouched.  The
lookup tables keep whatever the pass did to them in either case. -/
def filterData (f : Fetchers) (catalog : List Pokemon) (sel : Selection)
    (st : AppState) : AppState × Nat :=
  match runFilterPass f catalog sel st.caches with
  | (.ok res, c', n) =>
      let st1 : AppState := { filteredData := res, currentBatchIndex := 0, caches := c' }
      if res.isEmpty then (st1, n) else ((loadNextBatch st1).2, n)
  | (.error _, c', n) => ({ st with caches := c' }, n)

/-- Repeated `loadNextBatch` calls: the sequence of `(batch, hasMore)`
outputs of `n` consecutive calls, and the final state. -/
def runBatches : AppState → Nat → List (List Pokemon × Bool) × AppState
  | st, 0 => ([], st)
  | st, n + 1 =>
      let r := loadNextBatch st
      let rest := runBatches r.2 n
      (r.1 :: rest.1, rest.2)

/-- The synchronous part of one cache consultation in `checkMatchType`
(core.js lines 190-204), before any suspension: an entry whose `data` is
an empty array gets the chained fetch promise assigned (one fetch
issued); any other entry is left alone.  The observed list is what the
subsequent `await` will produce. -/
def checkStep (f : String → Option (List String)) (e : CacheEntry) :
    CacheEntry × List String × Nat :=
  match e.data with
  | .arr l =>
      if l.isEmpty then ({ url := e.url, data := .prom (f e.url) }, (f e.url).getD [], 1)
      else (e, l, 0)
  | .prom r => (e, r.getD [], 0)

/-- Settlement of the in-flight promise: the then-handler of a fulfilled
fetch writes the array back into the entry (core.js line 195); a rejected
promise stays in the `data` field, its catch-handler having produced
`[]`. -/
def settleStep (e : CacheEntry) : CacheEntry :=
  match e.data with
  | .prom (some l) => { url := e.url, data := .arr l }
  | _ => e

/-- An event-loop schedule for one cache entry: `true` steps are cache
consultations by per-entity evaluations, `false` steps are promise
settlements.  Collects the member lists observed and the fetches
issued. -/
def runSteps (f : String → Option (List String)) :
    List Bool → CacheEntry → List (List String) × CacheEntry × Nat
  | [], e => ([], e, 0)
  | true :: s, e =>
      let r := checkStep f e
      let rest := runSteps f s r.1
      (r.2.1 :: rest.1, rest.2.1, r.2.2 + rest.2.2)
  | false :: s, e => runSteps f s (settleStep e)

/-- The member list an entry denotes under a given fetcher: the stored
array if resolved and non-empty, the value of the pending promise, and
the fetch outcome (or `[]` on rejection) if the entry still looks
unresolved. -/
def effData (f : String → Option (List String)) (e : CacheEntry) : List String :=
  match e.data with
  | .arr l => if l.isEmpty then (f e.url).getD [] else l
  | .prom r => r.getD []

/-- The member list a category value denotes in a table, `none` when the
value is absent. -/
def effectiveMembers (f : String → Option (List String)) (m : CacheMap)
    (v : String) : Option (List String) :=
  (mapGet m v).map (effData f)

/-- The member list a category value denotes, absent values denoting no
members. -/
def effList (f : String → Option (List String)) (m : CacheMap) (v : String) :
    List String :=
  (effectiveMembers f m v).getD []

/-- A table holds no in-flight fulfilled promise: the quiescent states
between filter passes. -/
def NoInflight (m : CacheMap) : Prop :=
  ∀ v e, mapGet m v = some e → ∀ l, e.data ≠ .prom (some l)

/-- All three tables are quiescent. -/
def NoInflightC (c : Caches) : Prop :=
  NoInflight c.typeMap ∧ NoInflight c.colorMap ∧ NoInflight c.genderMap

/-- Two cache triples present the same category values with the same
denoted member lists. -/
def CachesEquiv (f : Fetchers) (c c' : Caches) : Prop :=
  (∀ v, (mapGet c.typeMap v).isSome = (mapGet c'.typeMap v).isSome) ∧
  (∀ v, effectiveMembers f.ftype c.typeMap v = effectiveMembers f.ftype c'.typeMap v) ∧
  (∀ v, (mapGet c.colorMap v).isSome = (mapGet c'.colorMap v).isSome) ∧
  (∀ v, effectiveMembers f.fcolor c.colorMap v = effectiveMembers f.fcolor c'.colorMap v) ∧
  (∀ v, (mapGet c.genderMap v).isSome = (mapGet c'.genderMap v).isSome) ∧
  (∀ v, effectiveMembers f.fgender c.genderMap v = effectiveMembers f.fgender c'.genderMap v)

/-- Pure account of the `checkMatchLoop` outcome in terms of denoted
member lists. -/
def loopSpecRes (f : String → Option (List String)) (m : CacheMap)
    (name : String) : List String → Except Unit Bool
  | [] => .ok false
  | v :: vs =>
      match mapGet m v with
      | none => .error ()
      | some e =>
          if (effData f e).contains name then .ok true
          else loopSpecRes f m name vs

/-- Pure account of `checkMatchType`/`checkMatchColor`. -/
def checkTypeSpec (f : String → Option (List String)) (m : CacheMap)
    (name : String) (vals : List String) : Except Unit Bool :=
  if vals.isEmpty then .ok true else loopSpecRes f m name vals

/-- Pure account of `checkMatchGender`. -/
def checkGenderSpec (f : String → Option (List String)) (m : CacheMap)
    (name : String) (gender : String) : Except Unit Bool :=
  if gender == "all" then .ok true
  else
    match mapGet m gender with
    | none => .error ()
    | some e => .ok ((effData f e).contains name)

/-- Pure account of one per-entity evaluation against the tables as they
stood at the start of the pass. -/
def evalSpecRes (f : Fetchers) (c : Caches) (query : String)
    (types colors : List String) (gender : String) (p : Pokemon) :
    Except Unit (Option Pokemon) :=
  match checkTypeSpec f.ftype c.typeMap p.name types,
        checkTypeSpec f.fcolor c.colorMap p.name colors,
        checkGenderSpec f.fgender c.genderMap p.name gender with
  | .ok mt, .ok mc, .ok mg =>
      .ok (if matchesQuery query p && mt && mc && mg then some p else none)
  | _, _, _ => .error ()

/-- The conjunction of the four predicates of spec section 4.2, read
against the member lists the tables denote at the start of the pass. -/
def predAll (f : Fetchers) (c : Caches) (query : String)
    (types colors : List String) (gender : String) (p : Pokemon) : Bool :=
  matchesQuery query p
    && (types.isEmpty || types.any fun v => (effList f.ftype c.typeMap v).contains p.name)
    && (colors.isEmpty || colors.any fun v => (effList f.fcolor c.colorMap v).contains p.name)
    && (gender == "all" || (effList f.fgender c.genderMap gender).contains p.name)

/-- Empty lookup tables, for concrete instantiations. -/
def emptyCaches : Caches :=
  { typeMap := [], colorMap := [], genderMap := [] }

/-- A concrete catalog of a given size, for concrete instantiations. -/
def demoCatalog (n : Nat) : List Pokemon :=
  (List.range n).map fun i =>
    { id := i + 1, name := Nat.repr (i + 1), image := "", url := "" }

/-- The three-entity catalog of the spec's text-search scenario. -/
def scenarioCatalog : List Pokemon :=
  [{ id := 1, name := "bulbasaur", image := "", url := "" },
   { id := 4, name := "charmander", image := "", url := "" },
   { id := 7, name := "squirtle", image := "", url := "" }]

/-- One batch output described positionally: the slice starting at `i` and
the has-more flag `loadNextBatch` computes for it. -/
def batchAt (l : List Pokemon) (i : Nat) : List Pokemon × Bool :=
  ((l.drop i).take batchSize, decide (i + batchSize < l.length))

/-- The 45-entity pagination scenario state, cursor at 0. -/
def demoState45 : AppState :=
  { filteredData := demoCatalog 45, currentBatchIndex := 0, caches := emptyCaches }

theorem mapGet_mapSet_self (m : CacheMap) (k : String) (v : CacheEntry) :
    mapGet (mapSet m k v) k = some v := by
  induction m with
  | nil => simp [mapSet, mapGet]
  | cons p rest ih =>
      obtain ⟨k', v'⟩ := p
      cases h : (k' == k) with
      | true => simp [mapSet, mapGet, h]
      | false => simp [mapSet, mapGet, h, ih]

theorem mapGet_mapSet_ne (m : CacheMap) (k k' : String) (v : CacheEntry)
    (h : k' ≠ k) : mapGet (mapSet m k v) k' = mapGet m k' := by
  induction m with
  | nil =>
      have : ¬ k = k' := fun hq => h hq.symm
      simp [mapSet, mapGet, this]
  | cons p rest ih =>
      obtain ⟨k0, v0⟩ := p
      cases hk : (k0 == k) with
      | true =>
          have hk' : (k0 == k') = false := by
            have : k0 = k := by simpa using hk
            subst this
            simpa using fun hq => h hq.symm
          simp [mapSet, mapGet, hk, hk']
      | false => simp [mapSet, mapGet, hk, ih]

theorem mapGet_mapSet_cases (m : CacheMap) (k k' : String) (v e : CacheEntry)
    (h : mapGet (mapSet m k v) k' = some e) : e = v ∨ mapGet m k' = some e := by
  by_cases hk : k' = k
  · subst hk
    rw [mapGet_mapSet_self] at h
    exact Or.inl (Option.some.inj h).symm
  · rw [mapGet_mapSet_ne m k k' v hk] at h
    exact Or.inr h

theorem isSome_mapGet_mapSet (m : CacheMap) (k : String) (v : CacheEntry)
    (h : (mapGet m k).isSome = true) (k' : String) :
    (mapGet (mapSet m k v) k').isSome = (mapGet m k').isSome := by
  by_cases hk : k' = k
  · subst hk
    rw [mapGet_mapSet_self]
    simp [h]
  · rw [mapGet_mapSet_ne m k k' v hk]

theorem resolveEntry_fst_data (f : String → Option (List String)) (e : CacheEntry)
    (l : List String) : (resolveEntry f e).1.data ≠ .prom (some l) := by
  obtain ⟨u, d⟩ := e
  cases d with
  | arr a =>
      by_cases ha : a.isEmpty <;> cases hf : f u <;>
        simp [resolveEntry, ha, hf]
  | prom r => cases r <;> simp [resolveEntry]

theorem resolveEntry_url (f : String → Option (List String)) (e : CacheEntry) :
    (resolveEntry f e).1.url = e.url := by
  obtain ⟨u, d⟩ := e
  cases d with
  | arr a =>
      by_cases ha : a.isEmpty <;> cases hf : f u <;>
        simp [resolveEntry, ha, hf]
  | prom r => cases r <;> simp [resolveEntry]

theorem resolveEntry_observe (f : String → Option (List String)) (e : CacheEntry)
    (h : ∀ l, e.data ≠ .prom (some l)) : (resolveEntry f e).2.1 = effData f e := by
  obtain ⟨u, d⟩ := e
  cases d with
  | arr a =>
      by_cases ha : a.isEmpty <;> cases hf : f u <;>
        simp [resolveEntry, effData, ha, hf]
  | prom r =>
      cases r with
      | none => simp [resolveEntry, effData]
      | some l => exact absurd rfl (h l)

theorem effData_resolveEntry (f : String → Option (List String)) (e : CacheEntry)
    (h : ∀ l, e.data ≠ .prom (some l)) :
    effData f (resolveEntry f e).1 = effData f e := by
  obtain ⟨u, d⟩ := e
  cases d with
  | arr a =>
      by_cases ha : a.isEmpty
      · cases hf : f u with
        | none => simp [resolveEntry, effData, ha, hf]
        | some r =>
            by_cases hr : r.isEmpty
            · have : r = [] := by simpa [List.isEmpty_iff] using hr
              simp [resolveEntry, effData, ha, hf, hr, this]
            · simp [resolveEntry, effData, ha, hf, hr]
      · simp [resolveEntry, effData, ha]
  | prom r =>
      cases r with
      | none => simp [resolveEntry, effData]
      | some l => exact absurd rfl (h l)

theorem checkMatchLoop_cons_none (f : String → Option (List String))
    (name v : String) (vs : List String) (m : CacheMap)
    (h : mapGet m v = none) :
    checkMatchLoop f name (v :: vs) m = (.error (), m, 0) := by
  simp [checkMatchLoop, h]

theorem checkMatchLoop_cons_some (f : String → Option (List String))
    (name v : String) (vs : List String) (m : CacheMap) (e : CacheEntry)
    (h : mapGet m v = some e) :
    checkMatchLoop f name (v :: vs) m =
      (if (resolveEntry f e).2.1.contains name
       then (.ok true, mapSet m v (resolveEntry f e).1, (resolveEntry f e).2.2)
       else ((checkMatchLoop f name vs (mapSet m v (resolveEntry f e).1)).1,
             (checkMatchLoop f name vs (mapSet m v (resolveEntry f e).1)).2.1,
             (resolveEntry f e).2.2 +
               (checkMatchLoop f name vs (mapSet m v (resolveEntry f e).1)).2.2)) := by
  by_cases hc : (resolveEntry f e).2.1.contains name <;>
    simp [checkMatchLoop, h, hc]

theorem loopSpecRes_congr (f : String → Option (List String)) (name : String) :
    ∀ (vs : List String) (m m' : CacheMap),
      (∀ v, (mapGet m v).isSome = (mapGet m' v).isSome) →
      (∀ v, effectiveMembers f m v = effectiveMembers f m' v) →
      loopSpecRes f m name vs = loopSpecRes f m' name vs := by
  intro vs
  induction vs with
  | nil => intro m m' _ _; rfl
  | cons v vs ih =>
      intro m m' hdom heff
      cases hget : mapGet m v with
      | none =>
          have hget' : mapGet m' v = none := by
            have h1 := hdom v
            rw [hget] at h1
            cases h2 : mapGet m' v
            · rfl
            · rw [h2] at h1; simp at h1
          simp [loopSpecRes, hget, hget']
      | some e =>
          have h1 := hdom v
          rw [hget] at h1
          cases h2 : mapGet m' v with
          | none => rw [h2] at h1; simp at h1
          | some e' =>
              have heq : effData f e = effData f e' := by
                have h3 := heff v
                rw [effectiveMembers, effectiveMembers, hget, h2] at h3
                simpa using h3
              simp [loopSpecRes, hget, h2, heq, ih m m' hdom heff]

theorem loopSpecRes_cons_some (f : String → Option (List String))
    (name v : String) (vs : List String) (m : CacheMap) (e : CacheEntry)
    (h : mapGet m v = some e) :
    loopSpecRes f m name (v :: vs) =
      if (effData f e).contains name then .ok true else loopSpecRes f m name vs := by
  simp only [loopSpecRes, h]

theorem checkMatchLoop_main (f : String → Option (List String)) (name : String) :
    ∀ (vs : List String) (m : CacheMap), NoInflight m →
      NoInflight (checkMatchLoop f name vs m).2.1
      ∧ (∀ v, (mapGet (checkMatchLoop f name vs m).2.1 v).isSome = (mapGet m v).isSome)
      ∧ (∀ v, effectiveMembers f (checkMatchLoop f name vs m).2.1 v = effectiveMembers f m v)
      ∧ (checkMatchLoop f name vs m).1 = loopSpecRes f m name vs := by
  intro vs
  induction vs with
  | nil =>
      intro m hm
      exact ⟨hm, fun v => rfl, fun v => rfl, rfl⟩
  | cons v vs ih =>
      intro m hm
      cases hget : mapGet m v with
      | none =>
          rw [checkMatchLoop_cons_none f name v vs m hget]
          exact ⟨hm, fun w => rfl, fun w => rfl, by simp [loopSpecRes, hget]⟩
      | some e =>
          have hni : ∀ l, e.data ≠ CacheData.prom (some l) := hm v e hget
          have hobs : (resolveEntry f e).2.1 = effData f e :=
            resolveEntry_observe f e hni
          have hsome : (mapGet m v).isSome = true := by simp [hget]
          have hm' : NoInflight (mapSet m v (resolveEntry f e).1) := by
            intro w ew hw l
            rcases mapGet_mapSet_cases m v w (resolveEntry f e).1 ew hw with h1 | h1
            · rw [h1]; exact resolveEntry_fst_data f e l
            · exact hm w ew h1 l
          have hdom : ∀ w, (mapGet (mapSet m v (resolveEntry f e).1) w).isSome
              = (mapGet m w).isSome :=
            fun w => isSome_mapGet_mapSet m v (resolveEntry f e).1 hsome w
          have heff : ∀ w, effectiveMembers f (mapSet m v (resolveEntry f e).1) w
              = effectiveMembers f m w := by
            intro w
            by_cases hw : w = v
            · subst hw
              rw [effectiveMembers, mapGet_mapSet_self, effectiveMembers, hget]
              simp [effData_resolveEntry f e hni]
            · rw [effectiveMembers, mapGet_mapSet_ne m v w (resolveEntry f e).1 hw,
                effectiveMembers]
          rw [checkMatchLoop_cons_some f name v vs m e hget]
          cases hc : (resolveEntry f e).2.1.contains name with
          | true =>
              have hc' : (effData f e).contains name = true := by rw [← hobs]; exact hc
              simp only [if_true]
              refine ⟨hm', hdom, heff, ?_⟩
              rw [loopSpecRes_cons_some f name v vs m e hget, hc']
              simp
          | false =>
              have hc' : (effData f e).contains name = false := by rw [← hobs]; exact hc
              simp only [Bool.false_eq_true, if_false]
              obtain ⟨ihni, ihdom, iheff, ihres⟩ := ih (mapSet m v (resolveEntry f e).1) hm'
              refine ⟨ihni, ?_, ?_, ?_⟩
              · intro w; rw [ihdom w, hdom w]
              · intro w; rw [iheff w, heff w]
              · rw [ihres, loopSpecRes_congr f name vs (mapSet m v (resolveEntry f e).1) m hdom heff,
                  loopSpecRes_cons_some f name v vs m e hget, hc']
                simp

theorem checkMatchColor_eq_checkMatchType (f : String → Option (List String))
    (name : String) (colors : List String) (m : CacheMap) :
    checkMatchColor f name colors m = checkMatchType f name colors m := rfl

theorem checkMatchType_main (f : String → Option (List String)) (name : String)
    (vals : List String) (m : CacheMap) (hm : NoInflight m) :
    NoInflight (checkMatchType f name vals m).2.1
    ∧ (∀ v, (mapGet (checkMatchType f name vals m).2.1 v).isSome = (mapGet m v).isSome)
    ∧ (∀ v, effectiveMembers f (checkMatchType f name vals m).2.1 v = effectiveMembers f m v)
    ∧ (checkMatchType f name vals m).1 = checkTypeSpec f m name vals := by
  cases hv : vals.isEmpty with
  | true =>
      refine ⟨?_, ?_, ?_, ?_⟩ <;> simp [checkMatchType, checkTypeSpec, hv]
      exact hm
  | false =>
      simp only [checkMatchType, checkTypeSpec, hv, Bool.false_eq_true, if_false]
      exact checkMatchLoop_main f name vals m hm

theorem checkMatchGender_main (f : String → Option (List String)) (name : String)
    (gender : String) (m : CacheMap) (hm : NoInflight m) :
    NoInflight (checkMatchGender f name gender m).2.1
    ∧ (∀ v, (mapGet (checkMatchGender f name gender m).2.1 v).isSome = (mapGet m v).isSome)
    ∧ (∀ v, effectiveMembers f (checkMatchGender f name gender m).2.1 v = effectiveMembers f m v)
    ∧ (checkMatchGender f name gender m).1 = checkGenderSpec f m name gender := by
  cases hall : (gender == "all") with
  | true =>
      refine ⟨?_, ?_, ?_, ?_⟩ <;> simp [checkMatchGender, checkGenderSpec, hall]
      exact hm
  | false =>
      simp only [checkMatchGender, checkGenderSpec, hall, Bool.false_eq_true, if_false]
      cases hget : mapGet m gender with
      | none =>
          refine ⟨?_, ?_, ?_, ?_⟩ <;> simp
          exact hm
      | some e =>
          have hni : ∀ l, e.data ≠ CacheData.prom (some l) := hm gender e hget
          have hobs : (resolveEntry f e).2.1 = effData f e :=
            resolveEntry_observe f e hni
          have hsome : (mapGet m gender).isSome = true := by simp [hget]
          refine ⟨?_, ?_, ?_, ?_⟩
          · intro w ew hw l
            rcases mapGet_mapSet_cases m gender w (resolveEntry f e).1 ew hw with h1 | h1
            · rw [h1]; exact resolveEntry_fst_data f e l
            · exact hm w ew h1 l
          · exact fun w => isSome_mapGet_mapSet m gender (resolveEntry f e).1 hsome w
          · intro w
            by_cases hw : w = gender
            · subst hw
              rw [effectiveMembers, mapGet_mapSet_self, effectiveMembers, hget]
              simp [effData_resolveEntry f e hni]
            · rw [effectiveMembers, mapGet_mapSet_ne m gender w (resolveEntry f e).1 hw,
                effectiveMembers]
          · show Except.ok ((resolveEntry f e).2.1.contains name)
              = Except.ok ((effData f e).contains name)
            rw [hobs]

theorem checkTypeSpec_congr (f : String → Option (List String)) (name : String)
    (vals : List String) (m m' : CacheMap)
    (hdom : ∀ v, (mapGet m v).isSome = (mapGet m' v).isSome)
    (heff : ∀ v, effectiveMembers f m v = effectiveMembers f m' v) :
    checkTypeSpec f m name vals = checkTypeSpec f m' name vals := by
  cases hv : vals.isEmpty with
  | true => simp [checkTypeSpec, hv]
  | false => simp [checkTypeSpec, hv, loopSpecRes_congr f name vals m m' hdom heff]

theorem checkGenderSpec_congr (f : String → Option (List String)) (name : String)
    (gender : String) (m m' : CacheMap)
    (hdom : ∀ v, (mapGet m v).isSome = (mapGet m' v).isSome)
    (heff : ∀ v, effectiveMembers f m v = effectiveMembers f m' v) :
    checkGenderSpec f m name gender = checkGenderSpec f m' name gender := by
  cases hall : (gender == "all") with
  | true => simp [checkGenderSpec, hall]
  | false =>
      simp only [checkGenderSpec, hall, Bool.false_eq_true, if_false]
      cases hget : mapGet m gender with
      | none =>
          have hget' : mapGet m' gender = none := by
            have h1 := hdom gender
            rw [hget] at h1
            cases h2 : mapGet m' gender
            · rfl
            · rw [h2] at h1; simp at h1
          rw [hget']
      | some e =>
          have h1 := hdom gender
          rw [hget] at h1
          cases h2 : mapGet m' gender with
          | none => rw [h2] at h1; simp at h1
          | some e' =>
              have heq : effData f e = effData f e' := by
                have h3 := heff gender
                rw [effectiveMembers, effectiveMembers, hget, h2] at h3
                simpa using h3
              show Except.ok ((effData f e).contains name)
                = Except.ok ((effData f e').contains name)
              rw [heq]

theorem cachesEquiv_refl (f : Fetchers) (c : Caches) : CachesEquiv f c c :=
  ⟨fun _ => rfl, fun _ => rfl, fun _ => rfl, fun _ => rfl, fun _ => rfl, fun _ => rfl⟩

theorem cachesEquiv_trans (f : Fetchers) (a b c : Caches)
    (h1 : CachesEquiv f a b) (h2 : CachesEquiv f b c) : CachesEquiv f a c := by
  obtain ⟨x1, x2, x3, x4, x5, x6⟩ := h1
  obtain ⟨y1, y2, y3, y4, y5, y6⟩ := h2
  exact ⟨fun v => (x1 v).trans (y1 v), fun v => (x2 v).trans (y2 v),
    fun v => (x3 v).trans (y3 v), fun v => (x4 v).trans (y4 v),
    fun v => (x5 v).trans (y5 v), fun v => (x6 v).trans (y6 v)⟩

theorem evalSpecRes_congr (f : Fetchers) (c c' : Caches)
    (h : CachesEquiv f c c') (query : String) (types colors : List String)
    (gender : String) (p : Pokemon) :
    evalSpecRes f c query types colors gender p
      = evalSpecRes f c' query types colors gender p := by
  obtain ⟨h1, h2, h3, h4, h5, h6⟩ := h
  rw [evalSpecRes, evalSpecRes,
    checkTypeSpec_congr f.ftype p.name types c.typeMap c'.typeMap h1 h2,
    checkTypeSpec_congr f.fcolor p.name colors c.colorMap c'.colorMap h3 h4,
    checkGenderSpec_congr f.fgender p.name gender c.genderMap c'.genderMap h5 h6]

theorem evalPokemon_main (f : Fetchers) (query : String) (types colors : List String)
    (gender : String) (p : Pokemon) (c : Caches) (hc : NoInflightC c) :
    NoInflightC (evalPokemon f query types colors gender p c).2.1
    ∧ CachesEquiv f (evalPokemon f query types colors gender p c).2.1 c
    ∧ (evalPokemon f query types colors gender p c).1
        = evalSpecRes f c query types colors gender p := by
  obtain ⟨h1, h2, h3⟩ := hc
  obtain ⟨tni, tdom, teff, tres⟩ := checkMatchType_main f.ftype p.name types c.typeMap h1
  obtain ⟨cni, cdom, ceff, cres⟩ := checkMatchType_main f.fcolor p.name colors c.colorMap h2
  obtain ⟨gni, gdom, geff, gres⟩ := checkMatchGender_main f.fgender p.name gender c.genderMap h3
  refine ⟨⟨tni, cni, gni⟩, ⟨tdom, teff, cdom, ceff, gdom, geff⟩, ?_⟩
  show (match (checkMatchType f.ftype p.name types c.typeMap).1,
      (checkMatchType f.fcolor p.name colors c.colorMap).1,
      (checkMatchGender f.fgender p.name gender c.genderMap).1 with
    | .ok mt, .ok mc, .ok mg =>
        Except.ok (if matchesQuery query p && mt && mc && mg then some p else none)
    | _, _, _ => Except.error ())
    = evalSpecRes f c query types colors gender p
  rw [tres, cres, gres, evalSpecRes]

theorem evalAll_main (f : Fetchers) (query : String) (types colors : List String)
    (gender : String) :
    ∀ (cat : List Pokemon) (c : Caches), NoInflightC c →
      NoInflightC (evalAll f query types colors gender cat c).2.1
      ∧ CachesEquiv f (evalAll f query types colors gender cat c).2.1 c
      ∧ (evalAll f query types colors gender cat c).1
          = cat.map (evalSpecRes f c query types colors gender) := by
  intro cat
  induction cat with
  | nil => intro c hc; exact ⟨hc, cachesEquiv_refl f c, rfl⟩
  | cons p ps ih =>
      intro c hc
      obtain ⟨eni, eeq, eres⟩ := evalPokemon_main f query types colors gender p c hc
      obtain ⟨ini, ieq, ires⟩ := ih (evalPokemon f query types colors gender p c).2.1 eni
      refine ⟨ini, cachesEquiv_trans f _ _ _ ieq eeq, ?_⟩
      show (evalPokemon f query types colors gender p c).1
          :: (evalAll f query types colors gender ps
              (evalPokemon f query types colors gender p c).2.1).1
        = evalSpecRes f c query types colors gender p
          :: ps.map (evalSpecRes f c query types colors gender)
      have hfun : evalSpecRes f (evalPokemon f query types colors gender p c).2.1
          query types colors gender = evalSpecRes f c query types colors gender :=
        funext (fun q => evalSpecRes_congr f _ c eeq query types colors gender q)
      rw [eres, ires, hfun]

theorem runFilterPass_main (f : Fetchers) (cat : List Pokemon) (sel : Selection)
    (c : Caches) (hc : NoInflightC c) :
    (runFilterPass f cat sel c).1
      = (promiseAll (cat.map (evalSpecRes f c (jsToLower (jsTrim sel.query))
          sel.types sel.colors sel.gender))).map (fun results => results.filterMap id)
    ∧ NoInflightC (runFilterPass f cat sel c).2.1
    ∧ CachesEquiv f (runFilterPass f cat sel c).2.1 c := by
  obtain ⟨ani, aeq, ares⟩ := evalAll_main f (jsToLower (jsTrim sel.query))
    sel.types sel.colors sel.gender cat c hc
  refine ⟨?_, ani, aeq⟩
  show (match promiseAll (evalAll f (jsToLower (jsTrim sel.query))
      sel.types sel.colors sel.gender cat c).1 with
    | .ok results => Except.ok (results.filterMap id)
    | .error e => Except.error e)
    = (promiseAll (cat.map (evalSpecRes f c (jsToLower (jsTrim sel.query))
        sel.types sel.colors sel.gender))).map (fun results => results.filterMap id)
  rw [ares]
  cases promiseAll (cat.map (evalSpecRes f c (jsToLower (jsTrim sel.query))
      sel.types sel.colors sel.gender)) with
  | ok os => rfl
  | error e => rfl

theorem effList_of_mapGet (f : String → Option (List String)) (m : CacheMap)
    (v : String) (e : CacheEntry) (h : mapGet m v = some e) :
    effList f m v = effData f e := by
  rw [effList, effectiveMembers, h]
  rfl

theorem loopSpecRes_ok_any (f : String → Option (List String)) (m : CacheMap)
    (name : String) :
    ∀ (vs : List String) (b : Bool), loopSpecRes f m name vs = .ok b →
      b = vs.any (fun v => (effList f m v).contains name) := by
  intro vs
  induction vs with
  | nil =>
      intro b h
      simp only [loopSpecRes] at h
      cases h
      rfl
  | cons v vs ih =>
      intro b h
      cases hget : mapGet m v with
      | none => simp [loopSpecRes, hget] at h
      | some e =>
          simp only [loopSpecRes, hget] at h
          rw [List.any_cons, effList_of_mapGet f m v e hget]
          cases hc : (effData f e).contains name with
          | true =>
              rw [hc] at h
              simp at h
              simp [h, hc]
          | false =>
              rw [hc] at h
              simp at h
              rw [ih b h]
              simp

theorem checkTypeSpec_ok (f : String → Option (List String)) (m : CacheMap)
    (name : String) (vals : List String) (b : Bool)
    (h : checkTypeSpec f m name vals = .ok b) :
    b = (vals.isEmpty || vals.any fun v => (effList f m v).contains name) := by
  cases hv : vals.isEmpty with
  | true =>
      rw [checkTypeSpec, hv] at h
      simp at h
      simp [h, hv]
  | false =>
      rw [checkTypeSpec, hv] at h
      simp only [Bool.false_eq_true, if_false] at h
      rw [loopSpecRes_ok_any f m name vals b h]
      simp

theorem checkGenderSpec_ok (f : String → Option (List String)) (m : CacheMap)
    (name gender : String) (b : Bool)
    (h : checkGenderSpec f m name gender = .ok b) :
    b = ((gender == "all") || (effList f m gender).contains name) := by
  cases hall : (gender == "all") with
  | true =>
      rw [checkGenderSpec, hall] at h
      simp at h
      simp [h, hall]
  | false =>
      rw [checkGenderSpec, hall] at h
      simp only [Bool.false_eq_true, if_false] at h
      cases hget : mapGet m gender with
      | none => rw [hget] at h; cases h
      | some e =>
          rw [hget] at h
          injection h with h
          rw [← h, effList_of_mapGet f m gender e hget]
          simp

theorem evalSpecRes_ok (f : Fetchers) (c : Caches) (query : String)
    (types colors : List String) (gender : String) (p : Pokemon)
    (o : Option Pokemon)
    (h : evalSpecRes f c query types colors gender p = .ok o) :
    o = if predAll f c query types colors gender p then some p else none := by
  rcases ht : checkTypeSpec f.ftype c.typeMap p.name types with u | mt
  · simp [evalSpecRes, ht] at h
  · rcases hco : checkTypeSpec f.fcolor c.colorMap p.name colors with u | mc
    · simp [evalSpecRes, ht, hco] at h
    · rcases hg : checkGenderSpec f.fgender c.genderMap p.name gender with u | mg
      · simp [evalSpecRes, ht, hco, hg] at h
      · simp only [evalSpecRes, ht, hco, hg] at h
        injection h with h
        rw [← h, predAll,
          checkTypeSpec_ok f.ftype c.typeMap p.name types mt ht,
          checkTypeSpec_ok f.fcolor c.colorMap p.name colors mc hco,
          checkGenderSpec_ok f.fgender c.genderMap p.name gender mg hg]

theorem promiseAll_filterMap (g : Pokemon → Except Unit (Option Pokemon))
    (spec : Pokemon → Bool)
    (hg : ∀ p o, g p = .ok o → o = if spec p then some p else none) :
    ∀ (cat : List Pokemon) (os : List (Option Pokemon)),
      promiseAll (cat.map g) = .ok os → os.filterMap id = cat.filter spec := by
  intro cat
  induction cat with
  | nil =>
      intro os h
      simp only [List.map_nil, promiseAll] at h
      cases h
      rfl
  | cons p ps ih =>
      intro os h
      rw [List.map_cons] at h
      cases hp : g p with
      | error e => rw [hp] at h; simp [promiseAll] at h
      | ok v =>
          rw [hp] at h
          simp only [promiseAll] at h
          cases hrest : promiseAll (ps.map g) with
          | error e => rw [hrest] at h; simp [Except.map] at h
          | ok os' =>
              rw [hrest] at h
              simp only [Except.map] at h
              injection h with h
              subst h
              have hv := hg p v hp
              rw [List.filter_cons]
              cases hs : spec p with
              | true =>
                  rw [hs] at hv
                  simp only [if_true] at hv
                  subst hv
                  simp [List.filterMap_cons, ih os' hrest]
              | false =>
                  rw [hs] at hv
                  simp only [Bool.false_eq_true, if_false] at hv
                  subst hv
                  simp [List.filterMap_cons, ih os' hrest]

theorem promiseAll_exists_ok :
    ∀ (es : List (Except Unit (Option Pokemon))),
      (∀ x ∈ es, ∃ v, x = .ok v) → ∃ os, promiseAll es = .ok os := by
  intro es
  induction es with
  | nil => intro _; exact ⟨[], rfl⟩
  | cons x xs ih =>
      intro h
      obtain ⟨v, hv⟩ := h x (List.mem_cons_self x xs)
      obtain ⟨os, hos⟩ := ih (fun y hy => h y (List.mem_cons_of_mem x hy))
      subst hv
      exact ⟨v :: os, by simp [promiseAll, hos, Except.map]⟩

theorem loadNextBatch_filteredData (st : AppState) :
    (loadNextBatch st).2.filteredData = st.filteredData := by
  by_cases h : st.filteredData.length ≤ st.currentBatchIndex <;>
    simp [loadNextBatch, h]

theorem loadNextBatch_caches (st : AppState) :
    (loadNextBatch st).2.caches = st.caches := by
  by_cases h : st.filteredData.length ≤ st.currentBatchIndex <;>
    simp [loadNextBatch, h]

theorem filterData_spec (f : Fetchers) (cat : List Pokemon) (sel : Selection)
    (st : AppState) :
    ((filterData f cat sel st).1.filteredData
      = match (runFilterPass f cat sel st.caches).1 with
        | .ok res => res
        | .error _ => st.filteredData)
    ∧ (filterData f cat sel st).1.caches = (runFilterPass f cat sel st.caches).2.1
    ∧ ((runFilterPass f cat sel st.caches).1 = .error () →
        (filterData f cat sel st).1.currentBatchIndex = st.currentBatchIndex) := by
  rcases hrp : runFilterPass f cat sel st.caches with ⟨r, c', n⟩
  cases r with
  | ok res =>
      by_cases hres : res.isEmpty
      · refine ⟨?_, ?_, ?_⟩ <;> simp [filterData, hrp, hres]
      · refine ⟨?_, ?_, ?_⟩ <;>
          simp [filterData, hrp, hres, loadNextBatch_filteredData, loadNextBatch_caches]
  | error e =>
      refine ⟨?_, ?_, ?_⟩ <;> simp [filterData, hrp]

theorem noInflightC_empty : NoInflightC emptyCaches :=
  ⟨fun _ _ h _ => Option.noConfusion h, fun _ _ h _ => Option.noConfusion h,
    fun _ _ h _ => Option.noConfusion h⟩

theorem evalPokemon_cleared (f : Fetchers) (p : Pokemon) (c : Caches) :
    evalPokemon f "" [] [] "all" p c = (.ok (some p), c, 0) := rfl

theorem evalAll_cleared (f : Fetchers) :
    ∀ (catalog : List Pokemon) (c : Caches),
      evalAll f "" [] [] "all" catalog c
        = (catalog.map (fun p => .ok (some p)), c, 0) := by
  intro catalog
  induction catalog with
  | nil => intro c; rfl
  | cons p ps ih => intro c; simp [evalAll, evalPokemon_cleared, ih]

theorem promiseAll_map_ok_some :
    ∀ (l : List Pokemon), promiseAll (l.map (fun p => .ok (some p))) = .ok (l.map some) := by
  intro l
  induction l with
  | nil => rfl
  | cons p ps ih => simp [promiseAll, ih, Except.map]

theorem filterMap_id_map_some :
    ∀ (l : List Pokemon), (l.map some).filterMap id = l := by
  intro l
  induction l with
  | nil => rfl
  | cons p ps ih => simp [List.filterMap_cons, ih]

theorem runFilterPass_ok_filter (f : Fetchers) (catalog : List Pokemon)
    (sel : Selection) (c : Caches) (res : List Pokemon)
    (hc : NoInflightC c)
    (h : (runFilterPass f catalog sel c).1 = .ok res) :
    res = catalog.filter
      (predAll f c (jsToLower (jsTrim sel.query)) sel.types sel.colors sel.gender) := by
  obtain ⟨hmain, _, _⟩ := runFilterPass_main f catalog sel c hc
  rw [hmain] at h
  cases hall : promiseAll (catalog.map (evalSpecRes f c (jsToLower (jsTrim sel.query))
      sel.types sel.colors sel.gender)) with
  | error e => rw [hall] at h; simp [Except.map] at h
  | ok os =>
      rw [hall] at h
      simp only [Except.map] at h
      injection h with h
      rw [← h]
      exact promiseAll_filterMap
        (evalSpecRes f c (jsToLower (jsTrim sel.query)) sel.types sel.colors sel.gender)
        (predAll f c (jsToLower (jsTrim sel.query)) sel.types sel.colors sel.gender)
        (fun p o hpo => evalSpecRes_ok f c (jsToLower (jsTrim sel.query))
          sel.types sel.colors sel.gender p o hpo)
        catalog os hall

/-- C1: for every catalog, selection, fetcher behaviour and quiescent cache
state, a successful `filterData` pass produces exactly the catalog entities
satisfying all four predicates of spec section 4.2 — text, type, color and
gender match, read against the member lists the caches denote at the start
of the pass — in the catalog's original order: the result is literally
`catalog.filter` of the conjoined predicate, so members satisfy all four
predicates, omitted entities fail at least one, and order is preserved. -/
theorem c1_apply_is_filter_of_predicates (f : Fetchers) (catalog : List Pokemon)
    (sel : Selection) (c : Caches) (res : List Pokemon)
    (hc : NoInflightC c)
    (h : (runFilterPass f catalog sel c).1 = .ok res) :
    res = catalog.filter
      (predAll f c (jsToLower (jsTrim sel.query)) sel.types sel.colors sel.gender) :=
  runFilterPass_ok_filter f catalog sel c res hc h

/-- Concrete instantiation of the C1 theorem: the text-search scenario
catalog with query `"char"`, starting from empty caches. -/
theorem c1_witness :
    [({ id := 4, name := "charmander", image := "", url := "" } : Pokemon)]
      = scenarioCatalog.filter
          (predAll { ftype := fun _ => none, fcolor := fun _ => none, fgender := fun _ => none }
            emptyCaches (jsToLower (jsTrim "char")) [] [] "all") :=
  c1_apply_is_filter_of_predicates
    { ftype := fun _ => none, fcolor := fun _ => none, fgender := fun _ => none }
    scenarioCatalog { query := "char", types := [], colors := [], gender := "all" }
    emptyCaches _ noInflightC_empty rfl

/-- C2: with all filters cleared — query empty after trimming, no selected
types or colors, gender `"all"` — `filterData`'s pass returns the catalog
itself, in order, touching no cache and issuing no category fetch; and on
the empty catalog the pass returns the empty result with zero fetches for
any selection whatsoever. -/
theorem c2_cleared_selection_identity :
    (∀ (f : Fetchers) (catalog : List Pokemon) (sel : Selection) (c : Caches),
        jsTrim sel.query = "" → sel.types = [] → sel.colors = [] →
        sel.gender = "all" →
        runFilterPass f catalog sel c = (.ok catalog, c, 0))
    ∧ (∀ (f : Fetchers) (sel : Selection) (c : Caches),
        runFilterPass f [] sel c = (.ok [], c, 0)) := by
  constructor
  · intro f catalog sel c hq hty hco hg
    obtain ⟨q, ty, co, g⟩ := sel
    simp only at hq hty hco hg
    subst hty
    subst hco
    subst hg
    have hq' : jsToLower (jsTrim q) = "" := by rw [hq]; rfl
    show (runFilterPass f catalog { query := q, types := [], colors := [], gender := "all" } c)
        = (.ok catalog, c, 0)
    simp only [runFilterPass, hq', evalAll_cleared, promiseAll_map_ok_some,
      filterMap_id_map_some]
  · intro f sel c
    rfl

/-- Concrete instantiation of the C2 theorem: two entities, cleared
filters. -/
theorem c2_witness :
    runFilterPass { ftype := fun _ => none, fcolor := fun _ => none, fgender := fun _ => none }
        (demoCatalog 2) { query := "  ", types := [], colors := [], gender := "all" }
        emptyCaches
      = (.ok (demoCatalog 2), emptyCaches, 0) :=
  c2_cleared_selection_identity.1
    { ftype := fun _ => none, fcolor := fun _ => none, fgender := fun _ => none }
    (demoCatalog 2) { query := "  ", types := [], colors := [], gender := "all" }
    emptyCaches rfl rfl rfl rfl

/-- C3: the text-match predicate holds exactly when the (trimmed,
lower-cased) query is empty, or the lower-cased entity name contains it as
a substring, or the decimal rendering of the entity id contains it; and on
the catalog bulbasaur/charmander/squirtle with query `"char"` and all
other filters cleared, the pass returns exactly charmander, whatever the
fetchers and caches are, with no fetch issued. -/
theorem c3_text_match_characterisation :
    (∀ (query : String) (p : Pokemon),
        matchesQuery query p = true ↔
          (query = "" ∨ strIncludes (jsToLower p.name) query = true
            ∨ strIncludes (Nat.repr p.id) query = true))
    ∧ (∀ (f : Fetchers) (c : Caches),
        runFilterPass f scenarioCatalog
            { query := "char", types := [], colors := [], gender := "all" } c
          = (.ok [{ id := 4, name := "charmander", image := "", url := "" }], c, 0)) := by
  constructor
  · intro query p
    simp [matchesQuery, or_assoc]
  · intro f c
    rfl

/-- C6 counterexample: the claim says every `loadNextBatch` call advances
the offset by `batchSize`; at the state with an empty Filtered Result and
offset 0, the call leaves the offset at 0 instead of 20 — the early-return
branch never advances. -/
theorem c6_counterexample_no_advance :
    ¬ ((loadNextBatch
          { filteredData := [], currentBatchIndex := 0, caches := emptyCaches
          }).2.currentBatchIndex = 0 + batchSize) := by
  decide

/-- C6 amended: every `loadNextBatch` call returns the slice
`[offset, offset+batchSize)` of the Filtered Result and reports whether
entities remain past `offset+batchSize`; when `offset < length` the offset
advances by `batchSize` even past the end (never clamped), but when
`offset ≥ length` the call returns the empty batch with `hasMore = false`
and leaves the offset unchanged. -/
theorem c6_next_batch_amended (st : AppState) :
    (loadNextBatch st).1.1 = (st.filteredData.drop st.currentBatchIndex).take batchSize
    ∧ (loadNextBatch st).1.2
        = decide (st.currentBatchIndex + batchSize < st.filteredData.length)
    ∧ (loadNextBatch st).2.filteredData = st.filteredData
    ∧ (loadNextBatch st).2.caches = st.caches
    ∧ (loadNextBatch st).2.currentBatchIndex
        = if st.currentBatchIndex < st.filteredData.length
          then st.currentBatchIndex + batchSize
          else st.currentBatchIndex := by
  by_cases h : st.filteredData.length ≤ st.currentBatchIndex
  · have h2 : ¬ st.currentBatchIndex < st.filteredData.length := by omega
    have h3 : ¬ (st.currentBatchIndex + batchSize < st.filteredData.length) := by
      simp only [batchSize]
      omega
    refine ⟨?_, ?_, ?_, ?_, ?_⟩ <;>
      simp [loadNextBatch, h, h2, h3, List.drop_of_length_le h]
  · have h2 : st.currentBatchIndex < st.filteredData.length := by omega
    refine ⟨?_, ?_, ?_, ?_, ?_⟩ <;> simp [loadNextBatch, h, h2]

theorem batchAt_of_length_le (l : List Pokemon) (i : Nat) (h : l.length ≤ i) :
    batchAt l i = ([], false) := by
  have h2 : ¬ (i + batchSize < l.length) := by simp only [batchSize]; omega
  simp [batchAt, List.drop_of_length_le h, h2]

theorem loadNextBatch_early (l : List Pokemon) (c : Caches) (i : Nat)
    (h : l.length ≤ i) :
    loadNextBatch { filteredData := l, currentBatchIndex := i, caches := c }
      = (([], false), { filteredData := l, currentBatchIndex := i, caches := c }) := by
  simp [loadNextBatch, h]

theorem loadNextBatch_step (l : List Pokemon) (c : Caches) (i : Nat)
    (h : ¬ l.length ≤ i) :
    loadNextBatch { filteredData := l, currentBatchIndex := i, caches := c }
      = (batchAt l i,
         { filteredData := l, currentBatchIndex := i + batchSize, caches := c }) := by
  simp [loadNextBatch, h, batchAt]

theorem runBatches_fst (l : List Pokemon) (c : Caches) :
    ∀ (n i : Nat),
      (runBatches { filteredData := l, currentBatchIndex := i, caches := c } n).1
        = (List.range n).map (fun j => batchAt l (i + batchSize * j)) := by
  intro n
  induction n with
  | zero => intro i; rfl
  | succ n ih =>
      intro i
      show (loadNextBatch { filteredData := l, currentBatchIndex := i, caches := c }).1
          :: (runBatches
              (loadNextBatch { filteredData := l, currentBatchIndex := i, caches := c }).2 n).1
        = (List.range (n + 1)).map (fun j => batchAt l (i + batchSize * j))
      rw [List.range_succ_eq_map, List.map_cons, List.map_map]
      by_cases h : l.length ≤ i
      · rw [loadNextBatch_early l c i h]
        have hhead : batchAt l (i + batchSize * 0) = ([], false) :=
          batchAt_of_length_le l _ (by omega)
        rw [hhead]
        refine congrArg (List.cons ([], false)) ?_
        rw [ih i]
        have h1 : (List.range n).map (fun j => batchAt l (i + batchSize * j))
            = (List.range n).map (fun _ => (([], false) : List Pokemon × Bool)) :=
          List.map_congr_left (fun j _ => batchAt_of_length_le l _ (by omega))
        have h2 : (List.range n).map ((fun j => batchAt l (i + batchSize * j)) ∘ Nat.succ)
            = (List.range n).map (fun _ => (([], false) : List Pokemon × Bool)) :=
          List.map_congr_left (fun j _ => batchAt_of_length_le l _ (by omega))
        rw [h1, h2]
      · rw [loadNextBatch_step l c i h]
        have hhead : batchAt l (i + batchSize * 0) = batchAt l i := by
          rw [Nat.mul_zero, Nat.add_zero]
        rw [hhead]
        refine congrArg (List.cons (batchAt l i)) ?_
        rw [ih (i + batchSize)]
        refine List.map_congr_left ?_
        intro j _
        show batchAt l (i + batchSize + batchSize * j)
          = batchAt l (i + batchSize * (j + 1))
        refine congrArg (batchAt l) ?_
        ring

theorem runBatches_flatten (l : List Pokemon) (c : Caches) :
    ∀ (n i : Nat), l.length ≤ i + batchSize * n →
      (((runBatches { filteredData := l, currentBatchIndex := i, caches := c } n).1.map
          Prod.fst)).flatten = l.drop i := by
  intro n
  induction n with
  | zero =>
      intro i h
      rw [List.drop_of_length_le (by simpa using h)]
      rfl
  | succ n ih =>
      intro i h
      show ((((loadNextBatch { filteredData := l, currentBatchIndex := i, caches := c }).1
          :: (runBatches
              (loadNextBatch { filteredData := l, currentBatchIndex := i, caches := c }).2
              n).1).map Prod.fst)).flatten = l.drop i
      by_cases hi : l.length ≤ i
      · rw [loadNextBatch_early l c i hi, List.map_cons, List.flatten_cons]
        have := ih i (by omega)
        rw [this, List.drop_of_length_le hi]
        rfl
      · rw [loadNextBatch_step l c i hi, List.map_cons, List.flatten_cons]
        have harith : l.length ≤ (i + batchSize) + batchSize * n := by
          have : i + batchSize * (n + 1) = (i + batchSize) + batchSize * n := by ring
          omega
        rw [ih (i + batchSize) harith]
        show (l.drop i).take batchSize ++ l.drop (i + batchSize) = l.drop i
        rw [← List.drop_drop, List.take_append_drop]

/-- C5: starting from offset 0 over a Filtered Result of length `L`,
`n ≥ ⌈L/20⌉` consecutive `loadNextBatch` calls deliver the slices
`[20·j, 20·j+20)` in order; their concatenation is the whole Filtered
Result, batch `j` is non-empty exactly when `j < ⌈L/20⌉` (the last
non-empty batch possibly short), every batch from `⌈L/20⌉` on also carries
`hasMore = false`; and for the 45-entity scenario the four first calls
deliver lengths 20, 20, 5, 0 with `hasMore` true, true, false, false. -/
theorem c5_pagination_batches (l : List Pokemon) (c : Caches) (n : Nat)
    (h : l.length ≤ batchSize * n) :
    ((runBatches { filteredData := l, currentBatchIndex := 0, caches := c } n).1
        = (List.range n).map (fun j => batchAt l (batchSize * j)))
    ∧ (((runBatches { filteredData := l, currentBatchIndex := 0, caches := c } n).1.map
        Prod.fst).flatten = l)
    ∧ (∀ j : Nat, (batchAt l (batchSize * j)).1 = []
        ↔ (l.length + (batchSize - 1)) / batchSize ≤ j)
    ∧ (∀ j : Nat, (l.length + (batchSize - 1)) / batchSize ≤ j →
        (batchAt l (batchSize * j)).2 = false)
    ∧ ((runBatches demoState45 4).1.map (fun b => (b.1.length, b.2))
        = [(20, true), (20, true), (5, false), (0, false)]) := by
  refine ⟨?_, ?_, ?_, ?_, ?_⟩
  · have := runBatches_fst l c n 0
    simpa using this
  · exact runBatches_flatten l c n 0 (by simpa using h)
  · intro j
    constructor
    · intro he
      simp only [batchAt] at he
      have hlen := congrArg List.length he
      simp only [List.length_take, List.length_drop, List.length_nil] at hlen
      simp only [batchSize] at hlen ⊢
      omega
    · intro hj
      show (l.drop (batchSize * j)).take batchSize = []
      apply List.length_eq_zero.mp
      simp only [List.length_take, List.length_drop]
      simp only [batchSize] at hj ⊢
      omega
  · intro j hj
    have h2 : ¬ (batchSize * j + batchSize < l.length) := by
      simp only [batchSize] at hj ⊢
      omega
    simp [batchAt, h2]
  · decide

/-- Concrete instantiation of the C5 theorem at the 45-entity scenario
with three batches. -/
theorem c5_witness :
    ((runBatches demoState45 3).1.map Prod.fst).flatten = demoCatalog 45 := by
  have h := (c5_pagination_batches (demoCatalog 45) emptyCaches 3 (by decide)).2.1
  exact h

/-- A cache entry that already carries its single fetch for value url `u`:
either the chained fetch promise itself, or the array the then-handler
wrote back after a successful non-empty fetch. -/
def FetchedInv (f : String → Option (List String)) (u : String)
    (e : CacheEntry) : Prop :=
  e.url = u ∧ (e.data = .prom (f u)
    ∨ ∃ l, f u = some l ∧ l ≠ [] ∧ e.data = .arr l)

theorem checkStep_fetched (f : String → Option (List String)) (u : String)
    (e : CacheEntry) (he : FetchedInv f u e) :
    checkStep f e = (e, (f u).getD [], 0) := by
  obtain ⟨eu, ed⟩ := e
  obtain ⟨heu, hdata⟩ := he
  simp only at heu
  rcases hdata with hp | ⟨l, hl, hne, ha⟩
  · simp only at hp
    subst hp
    rfl
  · simp only at ha
    subst ha
    have hemp : l.isEmpty = false := by
      cases l
      · exact absurd rfl hne
      · rfl
    simp [checkStep, hemp, hl]

theorem settleStep_fetched (f : String → Option (List String)) (u : String)
    (hu : f u ≠ some []) (e : CacheEntry) (he : FetchedInv f u e) :
    FetchedInv f u (settleStep e) := by
  obtain ⟨eu, ed⟩ := e
  obtain ⟨heu, hdata⟩ := he
  simp only at heu
  rcases hdata with hp | ⟨l, hl, hne, ha⟩
  · simp only at hp
    subst hp
    cases hf : f u with
    | none => exact ⟨heu, Or.inl (by simp [settleStep, hf])⟩
    | some l =>
        have hne : l ≠ [] := fun h => hu (by rw [hf, h])
        exact ⟨heu, Or.inr ⟨l, hf, hne, rfl⟩⟩
  · simp only at ha
    subst ha
    exact ⟨heu, Or.inr ⟨l, hl, hne, rfl⟩⟩

theorem runSteps_fetched (f : String → Option (List String)) (u : String)
    (hu : f u ≠ some []) :
    ∀ (steps : List Bool) (e : CacheEntry), FetchedInv f u e →
      (runSteps f steps e).2.2 = 0
      ∧ (∀ o ∈ (runSteps f steps e).1, o = (f u).getD []) := by
  intro steps
  induction steps with
  | nil =>
      intro e _
      exact ⟨rfl, fun o ho => absurd ho (List.not_mem_nil o)⟩
  | cons b s ih =>
      intro e he
      cases b with
      | false => exact ih (settleStep e) (settleStep_fetched f u hu e he)
      | true =>
          have hstep := checkStep_fetched f u e he
          obtain ⟨hcount, hobs⟩ := ih e he
          constructor
          · show (checkStep f e).2.2 + (runSteps f s (checkStep f e).1).2.2 = 0
            rw [hstep]
            simpa using hcount
          · intro o ho
            rw [show (runSteps f (true :: s) e).1
                = (checkStep f e).2.1 :: (runSteps f s (checkStep f e).1).1 from rfl,
              hstep] at ho
            rcases List.mem_cons.mp ho with h | h
            · exact h
            · exact hobs o h

/-- C4 counterexample: the claim says a category value is fetched at most
once per process lifetime; with a fetcher whose fetch succeeds with an
empty member list, the schedule check–settle–check on an unresolved entry
issues two fetches — the then-handler stores the empty array back, which
is indistinguishable from the unresolved state, so the next consultation
fetches again. -/
theorem c4_counterexample_refetch_after_empty_success :
    ¬ ((runSteps (fun _ => some []) [true, false, true]
          { url := "u", data := .arr [] }).2.2 ≤ 1) := by
  decide

/-- C4 amended: provided no fetch succeeds with an empty member list, a
category value starting unresolved is fetched at most once per process
lifetime under any event-loop schedule of consultations and promise
settlements: the first consultation issues the only fetch (exactly one
fetch when at least one consultation happens, none otherwise), and every
consultation — including those sharing the in-flight promise before it
settles — observes the same member list, the fetch result (or the empty
list after a rejected fetch). -/
theorem c4_fetch_once_amended (f : String → Option (List String)) (u : String)
    (hu : f u ≠ some []) (steps : List Bool) :
    (runSteps f steps { url := u, data := .arr [] }).2.2
        = (if steps.contains true then 1 else 0)
    ∧ (∀ o ∈ (runSteps f steps { url := u, data := .arr [] }).1,
        o = (f u).getD []) := by
  induction steps with
  | nil => exact ⟨rfl, fun o ho => absurd ho (List.not_mem_nil o)⟩
  | cons b s ih =>
      cases b with
      | false =>
          have hset : settleStep { url := u, data := CacheData.arr [] }
              = { url := u, data := CacheData.arr [] } := rfl
          obtain ⟨ihc, iho⟩ := ih
          constructor
          · show (runSteps f s
                (settleStep { url := u, data := CacheData.arr [] })).2.2
              = if (false :: s).contains true then 1 else 0
            rw [hset, ihc]
            simp [List.contains_cons]
          · intro o ho
            rw [show (runSteps f (false :: s) { url := u, data := CacheData.arr [] }).1
                = (runSteps f s
                    (settleStep { url := u, data := CacheData.arr [] })).1 from rfl,
              hset] at ho
            exact iho o ho
      | true =>
          have hstep : checkStep f { url := u, data := CacheData.arr [] }
              = ({ url := u, data := CacheData.prom (f u) }, (f u).getD [], 1) := rfl
          have hinv : FetchedInv f u { url := u, data := CacheData.prom (f u) } :=
            ⟨rfl, Or.inl rfl⟩
          obtain ⟨hcount, hobs⟩ := runSteps_fetched f u hu s _ hinv
          constructor
          · show (checkStep f { url := u, data := CacheData.arr [] }).2.2
                + (runSteps f s
                    (checkStep f { url := u, data := CacheData.arr [] }).1).2.2
              = if (true :: s).contains true then 1 else 0
            rw [hstep]
            simp only [List.contains_cons]
            simpa using hcount
          · intro o ho
            rw [show (runSteps f (true :: s) { url := u, data := CacheData.arr [] }).1
                = (checkStep f { url := u, data := CacheData.arr [] }).2.1
                  :: (runSteps f s
                      (checkStep f { url := u, data := CacheData.arr [] }).1).1 from rfl,
              hstep] at ho
            rcases List.mem_cons.mp ho with h | h
            · exact h
            · exact hobs o h

/-- Concrete instantiation of the C4 amended theorem: a fetch resolving to
a one-element list, consulted, settled, consulted again — one fetch in
total and both consultations observe the fetched list. -/
theorem c4_witness :
    (runSteps (fun _ => some ["a"]) [true, false, true]
        { url := "u", data := .arr [] }).2.2 = 1
    ∧ (∀ o ∈ (runSteps (fun _ => some ["a"]) [true, false, true]
        { url := "u", data := .arr [] }).1,
        o = (((fun _ => some ["a"] : String → Option (List String)) "u").getD [])) := by
  have h := c4_fetch_once_amended (fun _ => some ["a"]) "u" (by simp) [true, false, true]
  exact ⟨by simpa using h.1, h.2⟩

theorem promiseAll_map_const_none :
    ∀ (l : List Pokemon),
      promiseAll (l.map fun _ => .ok none) = .ok (l.map fun _ => (none : Option Pokemon)) := by
  intro l
  induction l with
  | nil => rfl
  | cons p ps ih =>
      show promiseAll (.ok none :: (ps.map fun _ => .ok none))
        = .ok (none :: (ps.map fun _ => (none : Option Pokemon)))
      simp only [promiseAll, ih, Except.map]

theorem filterMap_id_map_const_none :
    ∀ (l : List Pokemon), (l.map fun _ => (none : Option Pokemon)).filterMap id = [] := by
  intro l
  induction l with
  | nil => rfl
  | cons p ps ih =>
      show ((none : Option Pokemon) :: (ps.map fun _ => none)).filterMap id = []
      simp only [List.filterMap_cons, ih]
      rfl

theorem noInflight_transform :
    ∀ (l : List (String × String)), NoInflight (transformStructuredData l) := by
  intro l
  induction l with
  | nil => exact fun _ _ h _ => Option.noConfusion h
  | cons p rest ih =>
      intro v e h l'
      obtain ⟨k, u⟩ := p
      simp only [transformStructuredData, List.map_cons, mapGet] at h
      by_cases hk : (k == v) = true
      · rw [if_pos hk] at h
        injection h with h
        rw [← h]
        simp
      · rw [if_neg hk] at h
        exact ih v e h l'

/-- C7: with gender `"female"` selected (and no type or color filters),
the lookup entry for `"female"` unresolved and its fetch rejecting, the
catch-handler resolves the membership to the empty list, the rejection is
swallowed rather than propagated — the pass still settles with `.ok` — and
since no entity belongs to the empty membership, `filterData` publishes
the empty Filtered Result. -/
theorem c7_gender_fetch_failure_empty_result (f : Fetchers)
    (catalog : List Pokemon) (q : String) (st : AppState) (e : CacheEntry)
    (hc : NoInflightC st.caches)
    (hget : mapGet st.caches.genderMap "female" = some e)
    (hdata : e.data = .arr [])
    (hfail : f.fgender e.url = none) :
    (runFilterPass f catalog
        { query := q, types := [], colors := [], gender := "female" } st.caches).1
      = .ok []
    ∧ (filterData f catalog
        { query := q, types := [], colors := [], gender := "female" } st).1.filteredData
      = [] := by
  have hmain := (runFilterPass_main f catalog
    { query := q, types := [], colors := [], gender := "female" } st.caches hc).1
  have heff : effData f.fgender e = [] := by
    simp only [effData]
    rw [hdata]
    simp [hfail]
  have hspec : ∀ p : Pokemon,
      evalSpecRes f st.caches (jsToLower (jsTrim q)) [] [] "female" p
        = .ok none := by
    intro p
    have hg : checkGenderSpec f.fgender st.caches.genderMap p.name "female"
        = .ok false := by
      simp [checkGenderSpec, hget, heff]
    simp [evalSpecRes, checkTypeSpec, hg]
  have hmap : catalog.map
        (evalSpecRes f st.caches (jsToLower (jsTrim q)) [] [] "female")
      = catalog.map fun _ => Except.ok none :=
    List.map_congr_left fun p _ => hspec p
  have hout : (runFilterPass f catalog
      { query := q, types := [], colors := [], gender := "female" } st.caches).1
      = .ok [] := by
    rw [hmain]
    show ((promiseAll (catalog.map (evalSpecRes f st.caches
        (jsToLower (jsTrim q)) [] [] "female"))).map
        fun results => results.filterMap id) = .ok []
    rw [hmap, promiseAll_map_const_none]
    simp [Except.map, filterMap_id_map_const_none]
  refine ⟨hout, ?_⟩
  obtain ⟨hfd, _, _⟩ := filterData_spec f catalog
    { query := q, types := [], colors := [], gender := "female" } st
  rw [hfd, hout]

/-- The lookup-table state of the C7 scenario: only the gender table is
populated, with an unresolved `"female"` entry. -/
def femCaches : Caches :=
  { typeMap := [], colorMap := [],
    genderMap := transformStructuredData [("female", "gu")] }

/-- Concrete instantiation of the C7 theorem: two entities, gender
`"female"`, every fetch rejecting. -/
theorem c7_witness :
    (runFilterPass
        { ftype := fun _ => none, fcolor := fun _ => none, fgender := fun _ => none }
        (demoCatalog 2)
        { query := "", types := [], colors := [], gender := "female" }
        femCaches).1
      = .ok []
    ∧ (filterData
        { ftype := fun _ => none, fcolor := fun _ => none, fgender := fun _ => none }
        (demoCatalog 2)
        { query := "", types := [], colors := [], gender := "female" }
        { filteredData := demoCatalog 2, currentBatchIndex := 0,
          caches := femCaches }).1.filteredData
      = [] :=
  c7_gender_fetch_failure_empty_result
    { ftype := fun _ => none, fcolor := fun _ => none, fgender := fun _ => none }
    (demoCatalog 2) ""
    { filteredData := demoCatalog 2, currentBatchIndex := 0, caches := femCaches }
    { url := "gu", data := .arr [] }
    ⟨fun _ _ h _ => Option.noConfusion h, fun _ _ h _ => Option.noConfusion h,
      noInflight_transform [("female", "gu")]⟩
    rfl rfl rfl

/-- C8: the Filtered Result is replaced atomically.  The pass-level
`Promise.all` settles only after every per-entity evaluation has; if any
evaluation rejects, `filterData` takes the catch branch and both the
previously published Filtered Result and the pagination cursor are left
untouched; otherwise the published list is the complete filter of the
whole catalog — an observer never sees a partially updated or partially
applied list. -/
theorem c8_atomic_publish (f : Fetchers) (catalog : List Pokemon)
    (sel : Selection) (st : AppState) (hc : NoInflightC st.caches) :
    ((runFilterPass f catalog sel st.caches).1 = .error () →
      (filterData f catalog sel st).1.filteredData = st.filteredData
      ∧ (filterData f catalog sel st).1.currentBatchIndex = st.currentBatchIndex)
    ∧ ((filterData f catalog sel st).1.filteredData = st.filteredData
        ∨ (filterData f catalog sel st).1.filteredData
            = catalog.filter (predAll f st.caches (jsToLower (jsTrim sel.query))
                sel.types sel.colors sel.gender)) := by
  obtain ⟨hfd, hcache, hidx⟩ := filterData_spec f catalog sel st
  constructor
  · intro herr
    refine ⟨?_, hidx herr⟩
    rw [hfd, herr]
  · cases hres : (runFilterPass f catalog sel st.caches).1 with
    | error e =>
        left
        rw [hfd, hres]
    | ok res =>
        right
        rw [hfd, hres]
        exact runFilterPass_ok_filter f catalog sel st.caches res hc hres

/-- Concrete instantiation of the C8 theorem: cleared filters over a
two-entity catalog, starting from a non-trivial published result. -/
theorem c8_witness :
    ((runFilterPass { ftype := fun _ => none, fcolor := fun _ => none, fgender := fun _ => none }
        (demoCatalog 2) { query := "", types := [], colors := [], gender := "all" }
        ({ filteredData := [], currentBatchIndex := 7,
           caches := emptyCaches } : AppState).caches).1 = .error () →
      (filterData { ftype := fun _ => none, fcolor := fun _ => none, fgender := fun _ => none }
          (demoCatalog 2) { query := "", types := [], colors := [], gender := "all" }
          { filteredData := [], currentBatchIndex := 7,
            caches := emptyCaches }).1.filteredData = []
      ∧ (filterData { ftype := fun _ => none, fcolor := fun _ => none, fgender := fun _ => none }
          (demoCatalog 2) { query := "", types := [], colors := [], gender := "all" }
          { filteredData := [], currentBatchIndex := 7,
            caches := emptyCaches }).1.currentBatchIndex = 7)
    ∧ ((filterData { ftype := fun _ => none, fcolor := fun _ => none, fgender := fun _ => none }
          (demoCatalog 2) { query := "", types := [], colors := [], gender := "all" }
          { filteredData := [], currentBatchIndex := 7,
            caches := emptyCaches }).1.filteredData = []
        ∨ (filterData { ftype := fun _ => none, fcolor := fun _ => none, fgender := fun _ => none }
            (demoCatalog 2) { query := "", types := [], colors := [], gender := "all" }
            { filteredData := [], currentBatchIndex := 7,
              caches := emptyCaches }).1.filteredData
          = (demoCatalog 2).filter
              (predAll { ftype := fun _ => none, fcolor := fun _ => none, fgender := fun _ => none }
                emptyCaches (jsToLower (jsTrim "")) [] [] "all")) :=
  c8_atomic_publish
    { ftype := fun _ => none, fcolor := fun _ => none, fgender := fun _ => none }
    (demoCatalog 2) { query := "", types := [], colors := [], gender := "all" }
    { filteredData := [], currentBatchIndex := 7, caches := emptyCaches }
    noInflightC_empty

/-- C9: running `filterData` twice with the same catalog, the same
selection and the same deterministic fetchers publishes the same Filtered
Result both times, even though the first pass may have mutated the lookup
tables by resolving member lists — resolved entries denote the same
member lists the unresolved entries did. -/
theorem c9_apply_idempotent (f : Fetchers) (catalog : List Pokemon)
    (sel : Selection) (st : AppState) (hc : NoInflightC st.caches) :
    (filterData f catalog sel ((filterData f catalog sel st).1)).1.filteredData
      = (filterData f catalog sel st).1.filteredData := by
  obtain ⟨hout, hni, hequiv⟩ := runFilterPass_main f catalog sel st.caches hc
  obtain ⟨hfd1, hcache1, _⟩ := filterData_spec f catalog sel st
  have hc1 : NoInflightC ((filterData f catalog sel st).1).caches := by
    rw [hcache1]
    exact hni
  have heqv : CachesEquiv f ((filterData f catalog sel st).1).caches st.caches := by
    rw [hcache1]
    exact hequiv
  obtain ⟨hout2, _, _⟩ :=
    runFilterPass_main f catalog sel ((filterData f catalog sel st).1).caches hc1
  obtain ⟨hfd2, _, _⟩ := filterData_spec f catalog sel ((filterData f catalog sel st).1)
  have hmapeq : catalog.map (evalSpecRes f ((filterData f catalog sel st).1).caches
        (jsToLower (jsTrim sel.query)) sel.types sel.colors sel.gender)
      = catalog.map (evalSpecRes f st.caches
        (jsToLower (jsTrim sel.query)) sel.types sel.colors sel.gender) :=
    List.map_congr_left fun p _ =>
      evalSpecRes_congr f _ st.caches heqv (jsToLower (jsTrim sel.query))
        sel.types sel.colors sel.gender p
  have hsame : (runFilterPass f catalog sel ((filterData f catalog sel st).1).caches).1
      = (runFilterPass f catalog sel st.caches).1 := by
    rw [hout, hout2, hmapeq]
  cases hres : (runFilterPass f catalog sel st.caches).1 with
  | ok res =>
      rw [hfd2, hsame, hres, hfd1, hres]
  | error e =>
      rw [hfd2, hsame, hres]

/-- Concrete instantiation of the C9 theorem: the text-search scenario run
twice from empty caches. -/
theorem c9_witness :
    (filterData { ftype := fun _ => none, fcolor := fun _ => none, fgender := fun _ => none }
        scenarioCatalog { query := "char", types := [], colors := [], gender := "all" }
        ((filterData { ftype := fun _ => none, fcolor := fun _ => none, fgender := fun _ => none }
          scenarioCatalog { query := "char", types := [], colors := [], gender := "all" }
          { filteredData := [], currentBatchIndex := 0,
            caches := emptyCaches }).1)).1.filteredData
      = (filterData { ftype := fun _ => none, fcolor := fun _ => none, fgender := fun _ => none }
          scenarioCatalog { query := "char", types := [], colors := [], gender := "all" }
          { filteredData := [], currentBatchIndex := 0,
            caches := emptyCaches }).1.filteredData :=
  c9_apply_idempotent
    { ftype := fun _ => none, fcolor := fun _ => none, fgender := fun _ => none }
    scenarioCatalog { query := "char", types := [], colors := [], gender := "all" }
    { filteredData := [], currentBatchIndex := 0, caches := emptyCaches }
    noInflightC_empty

theorem loopSpecRes_isOk (f : String → Option (List String)) (m : CacheMap)
    (name : String) :
    ∀ (vals : List String), (∀ v ∈ vals, (mapGet m v).isSome = true) →
      ∃ b, loopSpecRes f m name vals = .ok b := by
  intro vals
  induction vals with
  | nil => intro _; exact ⟨false, rfl⟩
  | cons v vs ih =>
      intro h
      have hv := h v (List.mem_cons_self v vs)
      cases hget : mapGet m v with
      | none => rw [hget] at hv; simp at hv
      | some e =>
          by_cases hcont : (effData f e).contains name = true
          · refine ⟨true, ?_⟩
            rw [loopSpecRes_cons_some f name v vs m e hget, hcont]
            simp
          · have hcf : (effData f e).contains name = false := by
              simpa using hcont
            obtain ⟨b, hb⟩ := ih fun w hw => h w (List.mem_cons_of_mem v hw)
            refine ⟨b, ?_⟩
            rw [loopSpecRes_cons_some f name v vs m e hget, hcf]
            simpa using hb

theorem checkTypeSpec_isOk (f : String → Option (List String)) (m : CacheMap)
    (name : String) (vals : List String)
    (h : ∀ v ∈ vals, (mapGet m v).isSome = true) :
    ∃ b, checkTypeSpec f m name vals = .ok b := by
  cases hv : vals.isEmpty with
  | true => exact ⟨true, by simp [checkTypeSpec, hv]⟩
  | false =>
      obtain ⟨b, hb⟩ := loopSpecRes_isOk f m name vals h
      exact ⟨b, by simp [checkTypeSpec, hv, hb]⟩

theorem checkGenderSpec_isOk (f : String → Option (List String)) (m : CacheMap)
    (name gender : String)
    (h : gender = "all" ∨ (mapGet m gender).isSome = true) :
    ∃ b, checkGenderSpec f m name gender = .ok b := by
  rcases h with h | h
  · subst h
    exact ⟨true, rfl⟩
  · cases hall : (gender == "all") with
    | true => exact ⟨true, by simp [checkGenderSpec, hall]⟩
    | false =>
        cases hget : mapGet m gender with
        | none => rw [hget] at h; simp at h
        | some e =>
            exact ⟨(effData f e).contains name, by simp [checkGenderSpec, hall, hget]⟩

theorem evalSpecRes_isOk (f : Fetchers) (c : Caches) (query : String)
    (types colors : List String) (gender : String) (p : Pokemon)
    (hty : ∀ v ∈ types, (mapGet c.typeMap v).isSome = true)
    (hco : ∀ v ∈ colors, (mapGet c.colorMap v).isSome = true)
    (hg : gender = "all" ∨ (mapGet c.genderMap gender).isSome = true) :
    ∃ o, evalSpecRes f c query types colors gender p = .ok o := by
  obtain ⟨bt, hbt⟩ := checkTypeSpec_isOk f.ftype c.typeMap p.name types hty
  obtain ⟨bc, hbc⟩ := checkTypeSpec_isOk f.fcolor c.colorMap p.name colors hco
  obtain ⟨bg, hbg⟩ := checkGenderSpec_isOk f.fgender c.genderMap p.name gender hg
  refine ⟨if matchesQuery query p && bt && bc && bg then some p else none, ?_⟩
  rw [evalSpecRes, hbt, hbc, hbg]

/-- C10: (a) if the selected gender value is neither `"all"` nor a key of
the gender table — as happens with the empty string reported when no
gender radio button is checked — `checkMatchGender` dereferences the
`undefined` table entry and throws, the whole pass rejects into
`filterData`'s catch branch, and the previously published Filtered Result
and cursor stay in place; (b) under the precondition that every selected
type and color value is a key of its table and the gender is `"all"` or a
key of the gender table, no per-entity evaluation throws and the pass
settles with `.ok`. -/
theorem c10_unknown_gender_throws_known_keys_safe :
    (∀ (f : Fetchers) (p : Pokemon) (ps : List Pokemon) (sel : Selection)
        (st : AppState),
        sel.gender ≠ "all" →
        mapGet st.caches.genderMap sel.gender = none →
        (runFilterPass f (p :: ps) sel st.caches).1 = .error ()
        ∧ (filterData f (p :: ps) sel st).1.filteredData = st.filteredData
        ∧ (filterData f (p :: ps) sel st).1.currentBatchIndex
            = st.currentBatchIndex)
    ∧ (∀ (f : Fetchers) (catalog : List Pokemon) (sel : Selection) (c : Caches),
        NoInflightC c →
        (∀ v ∈ sel.types, (mapGet c.typeMap v).isSome = true) →
        (∀ v ∈ sel.colors, (mapGet c.colorMap v).isSome = true) →
        (sel.gender = "all" ∨ (mapGet c.genderMap sel.gender).isSome = true) →
        ∃ res, (runFilterPass f catalog sel c).1 = .ok res) := by
  constructor
  · intro f p ps sel st hgender hnone
    have hall : (sel.gender == "all") = false := by
      simpa using hgender
    have hg : (checkMatchGender f.fgender p.name sel.gender st.caches.genderMap).1
        = .error () := by
      simp [checkMatchGender, hall, hnone]
    have hev : (evalPokemon f (jsToLower (jsTrim sel.query)) sel.types sel.colors
        sel.gender p st.caches).1 = .error () := by
      show (match (checkMatchType f.ftype p.name sel.types st.caches.typeMap).1,
          (checkMatchColor f.fcolor p.name sel.colors st.caches.colorMap).1,
          (checkMatchGender f.fgender p.name sel.gender st.caches.genderMap).1 with
        | .ok mt, .ok mc, .ok mg =>
            Except.ok (if matchesQuery (jsToLower (jsTrim sel.query)) p
                && mt && mc && mg then some p else none)
        | _, _, _ => Except.error ())
        = .error ()
      rw [hg]
      rcases (checkMatchType f.ftype p.name sel.types st.caches.typeMap).1 with u | mt <;>
        rcases (checkMatchColor f.fcolor p.name sel.colors st.caches.colorMap).1 with u2 | mc <;>
        rfl
    have hpass : (runFilterPass f (p :: ps) sel st.caches).1 = .error () := by
      show (match promiseAll
          ((evalPokemon f (jsToLower (jsTrim sel.query)) sel.types sel.colors
              sel.gender p st.caches).1
            :: (evalAll f (jsToLower (jsTrim sel.query)) sel.types sel.colors
                sel.gender ps
                (evalPokemon f (jsToLower (jsTrim sel.query)) sel.types sel.colors
                  sel.gender p st.caches).2.1).1) with
        | .ok results => Except.ok (results.filterMap id)
        | .error e => Except.error e)
        = .error ()
      rw [hev]
      rfl
    obtain ⟨hfd, _, hidx⟩ := filterData_spec f (p :: ps) sel st
    refine ⟨hpass, ?_, hidx hpass⟩
    rw [hfd, hpass]
  · intro f catalog sel c hc hty hco hg
    obtain ⟨hout, _, _⟩ := runFilterPass_main f catalog sel c hc
    have hok : ∀ x ∈ catalog.map (evalSpecRes f c (jsToLower (jsTrim sel.query))
        sel.types sel.colors sel.gender), ∃ v, x = .ok v := by
      intro x hx
      obtain ⟨p, _, hpx⟩ := List.mem_map.mp hx
      obtain ⟨o, ho⟩ := evalSpecRes_isOk f c (jsToLower (jsTrim sel.query))
        sel.types sel.colors sel.gender p hty hco hg
      exact ⟨o, by rw [← hpx, ho]⟩
    obtain ⟨os, hos⟩ := promiseAll_exists_ok _ hok
    refine ⟨os.filterMap id, ?_⟩
    rw [hout, hos]
    rfl

/-- Concrete instantiation of the C10 theorem: (a) the empty gender value
over empty tables makes the pass reject and keeps the published result;
(b) cleared filters satisfy the precondition and the pass settles. -/
theorem c10_witness :
    ((runFilterPass
        { ftype := fun _ => none, fcolor := fun _ => none, fgender := fun _ => none }
        scenarioCatalog { query := "", types := [], colors := [], gender := "" }
        ({ filteredData := demoCatalog 2, currentBatchIndex := 3,
           caches := emptyCaches } : AppState).caches).1 = .error ()
      ∧ (filterData
          { ftype := fun _ => none, fcolor := fun _ => none, fgender := fun _ => none }
          scenarioCatalog { query := "", types := [], colors := [], gender := "" }
          { filteredData := demoCatalog 2, currentBatchIndex := 3,
            caches := emptyCaches }).1.filteredData = demoCatalog 2
      ∧ (filterData
          { ftype := fun _ => none, fcolor := fun _ => none, fgender := fun _ => none }
          scenarioCatalog { query := "", types := [], colors := [], gender := "" }
          { filteredData := demoCatalog 2, currentBatchIndex := 3,
            caches := emptyCaches }).1.currentBatchIndex = 3)
    ∧ (∃ res, (runFilterPass
        { ftype := fun _ => none, fcolor := fun _ => none, fgender := fun _ => none }
        scenarioCatalog { query := "", types := [], colors := [], gender := "all" }
        emptyCaches).1 = .ok res) := by
  constructor
  · exact c10_unknown_gender_throws_known_keys_safe.1
      { ftype := fun _ => none, fcolor := fun _ => none, fgender := fun _ => none }
      { id := 1, name := "bulbasaur", image := "", url := "" }
      [{ id := 4, name := "charmander", image := "", url := "" },
        { id := 7, name := "squirtle", image := "", url := "" }]
      { query := "", types := [], colors := [], gender := "" }
      { filteredData := demoCatalog 2, currentBatchIndex := 3,
        caches := emptyCaches }
      (by decide) rfl
  · exact c10_unknown_gender_throws_known_keys_safe.2
      { ftype := fun _ => none, fcolor := fun _ => none, fgender := fun _ => none }
      scenarioCatalog { query := "", types := [], colors := [], gender := "all" }
      emptyCaches noInflightC_empty
      (fun v hv => absurd hv (List.not_mem_nil v))
      (fun v hv => absurd hv (List.not_mem_nil v))
      (Or.inl rfl)
